import Mathlib

/-!
Verification of the `blockbot` repository's persistence and iteration core.

This file gives a shallow embedding, in Lean 4, of the parts of the source
that the specification's claims are about:

* `src/blockbot/collections.py` — the `SqliteDict` store (schema-typed rows
  backed by a SQLite table), its `__getitem__` / `__setitem__` /
  `__delitem__` / `__contains__` operations, and the CSV bulk export
  (`to_csv`) and transactional bulk import (`load_csv`).
* `src/blockbot/api.py` — the `RateLimit` sliding-window limiter and the
  paginated generators `user_timeline` / `search_tweets`.
* `src/blockbot/block_followers.py` and `src/blockbot/block_media_replies.py`
  — the resumable walks `followers` / `tweets` / `replies` and the memoized
  gates `block_follower` / `block_account`.  The follower walk's loop calls
  `api.followers`, a name `blockbot.api` does not define, so that walk can
  never reach its remote side; its embedding reflects this.

Values stored by the Python code are SQLite values (NULL, INTEGER, TEXT);
SQLite's column type affinity (conversion of inserted values to the column's
declared type where lossless and reversible) is modelled explicitly because
the source relies on it for every insert.  Generators are embedded as
functions producing explicit event traces (fetch / yield / persist events),
with fuel for termination; every theorem supplies enough fuel.
-/

/-! ## Decimal representation of integers

Models Python's `str()` applied to an `int` (as done by `csv.writer` and by
`str(cursor_state.next_cursor)` in the source) and SQLite's lossless,
reversible text-to-integer conversion used by INTEGER column affinity. -/

/-- One decimal digit character, `0 ≤ d ≤ 9` intended. -/
def digitChar (d : Nat) : Char := Char.ofNat (48 + d)

/-- Is `c` a decimal digit character. -/
def isDig (c : Char) : Bool := 48 ≤ c.toNat && c.toNat ≤ 57

/-- Numeric value of a digit character. -/
def digVal (c : Char) : Nat := c.toNat - 48

/-- Decimal digit characters of `n`, most significant first; `fuel` bounds
the recursion (any `fuel > n` is enough). -/
def natDigitsAux : Nat → Nat → List Char
  | 0, _ => []
  | fuel + 1, n =>
    if n < 10 then [digitChar n]
    else natDigitsAux fuel (n / 10) ++ [digitChar (n % 10)]

/-- Decimal string of a natural number, as Python's `str` renders it. -/
def natToDec (n : Nat) : List Char := natDigitsAux (n + 1) n

/-- Decimal string of an integer, as Python's `str` renders it. -/
def intToDec (i : Int) : String :=
  if i < 0 then String.mk ('-' :: natToDec i.natAbs) else String.mk (natToDec i.natAbs)

/-- Accumulating decimal parser: consumes digit characters only. -/
def parseGo (acc : Nat) : List Char → Option Nat
  | [] => some acc
  | c :: cs => if isDig c then parseGo (acc * 10 + digVal c) cs else none

/-- Parse a (non-empty, optionally `-`-signed) decimal character list. -/
def decToIntRaw : List Char → Option Int
  | [] => none
  | c :: cs =>
    if c = '-' then
      if cs.isEmpty then none else (parseGo 0 cs).map (fun n => -(n : Int))
    else (parseGo 0 (c :: cs)).map (fun n => (n : Int))

/-- SQLite's INTEGER-affinity conversion of a text value: convert exactly
when the conversion is lossless and reversible (canonical decimal form). -/
def decToInt (s : String) : Option Int :=
  match decToIntRaw s.data with
  | none => none
  | some i => if intToDec i = s then some i else none

theorem parseGo_append (acc : Nat) (xs ys : List Char) :
    parseGo acc (xs ++ ys) = (parseGo acc xs).bind (fun a => parseGo a ys) := by
  induction xs generalizing acc with
  | nil => simp [parseGo]
  | cons c cs ih =>
    simp only [List.cons_append, parseGo]
    by_cases h : isDig c
    · simp [h, ih]
    · simp [h]

theorem digitChar_spec (d : Nat) (hd : d < 10) :
    isDig (digitChar d) = true ∧ digVal (digitChar d) = d := by
  interval_cases d <;> exact ⟨by decide, by decide⟩

theorem parseGo_natDigitsAux (fuel n acc : Nat) (h : n < fuel) :
    parseGo acc (natDigitsAux fuel n) =
      some (acc * 10 ^ (natDigitsAux fuel n).length + n) := by
  induction fuel generalizing n acc with
  | zero => omega
  | succ fuel ih =>
    by_cases hn : n < 10
    · obtain ⟨h1, h2⟩ := digitChar_spec n hn
      simp [natDigitsAux, hn, parseGo, h1, h2]
    · have hrec : n / 10 < fuel := by omega
      obtain ⟨h1, h2⟩ := digitChar_spec (n % 10) (Nat.mod_lt _ (by omega))
      simp only [natDigitsAux, hn, if_false, parseGo_append]
      rw [ih _ _ hrec]
      simp only [Option.bind_some, parseGo, h1, if_true, h2, List.length_append,
        List.length_singleton]
      show some ((acc * 10 ^ (natDigitsAux fuel (n / 10)).length + n / 10) * 10 + n % 10)
        = some (acc * 10 ^ ((natDigitsAux fuel (n / 10)).length + 1) + n)
      congr 1
      have hpow : acc * 10 ^ ((natDigitsAux fuel (n / 10)).length + 1) =
          acc * 10 ^ (natDigitsAux fuel (n / 10)).length * 10 := by ring
      rw [hpow]
      omega

theorem parseGo_natToDec (n : Nat) : parseGo 0 (natToDec n) = some n := by
  have := parseGo_natDigitsAux (n + 1) n 0 (by omega)
  simpa [natToDec] using this

theorem natToDec_ne_nil (n : Nat) : natToDec n ≠ [] := by
  unfold natToDec natDigitsAux
  by_cases h : n < 10 <;> simp [h]

theorem natDigitsAux_all_digits (fuel : Nat) :
    ∀ m, ∀ x ∈ natDigitsAux fuel m, isDig x = true := by
  induction fuel with
  | zero => intro m x hx; simp [natDigitsAux] at hx
  | succ fuel ih =>
    intro m x hx
    unfold natDigitsAux at hx
    by_cases hm : m < 10
    · simp [hm] at hx
      obtain ⟨h1, _⟩ := digitChar_spec m hm
      rw [hx]; exact h1
    · simp [hm] at hx
      rcases hx with hx | hx
      · exact ih _ _ hx
      · obtain ⟨h1, _⟩ := digitChar_spec (m % 10) (Nat.mod_lt _ (by omega))
        rw [hx]; exact h1

theorem natToDec_head_ne_neg (n : Nat) (c : Char) (cs : List Char)
    (h : natToDec n = c :: cs) : c ≠ '-' := by
  have hmem : c ∈ natToDec n := by rw [h]; exact List.mem_cons_self _ _
  have hdig : isDig c = true := natDigitsAux_all_digits (n + 1) n c hmem
  intro hc
  rw [hc] at hdig
  exact absurd hdig (by decide)

theorem decToIntRaw_natToDec (n : Nat) : decToIntRaw (natToDec n) = some (n : Int) := by
  rcases hd : natToDec n with _ | ⟨c, cs⟩
  · exact absurd hd (natToDec_ne_nil n)
  · have hc := natToDec_head_ne_neg n c cs hd
    have hp : parseGo 0 (c :: cs) = some n := by rw [← hd]; exact parseGo_natToDec n
    simp [decToIntRaw, hc, hp]

theorem decToIntRaw_intToDec (i : Int) : decToIntRaw (intToDec i).data = some i := by
  by_cases h : i < 0
  · simp only [intToDec, h, if_true]
    show decToIntRaw ('-' :: natToDec i.natAbs) = some i
    have hne : (natToDec i.natAbs).isEmpty = false := by
      rcases hd : natToDec i.natAbs with _ | _
      · exact absurd hd (natToDec_ne_nil _)
      · rfl
    have hp : parseGo 0 (natToDec i.natAbs) = some i.natAbs := parseGo_natToDec _
    have hstep : decToIntRaw ('-' :: natToDec i.natAbs)
        = (parseGo 0 (natToDec i.natAbs)).map (fun n => -(n : Int)) := by
      simp [decToIntRaw, hne]
    rw [hstep, hp]
    have habs : ((i.natAbs : Nat) : Int) = -i := by omega
    simp [habs]
  · simp only [intToDec, h, if_false]
    show decToIntRaw (natToDec i.natAbs) = some i
    rw [decToIntRaw_natToDec]
    congr 1
    omega

/-- Round trip: SQLite's INTEGER affinity recovers exactly the integer that
Python's `str` rendered. -/
theorem decToInt_intToDec (i : Int) : decToInt (intToDec i) = some i := by
  unfold decToInt
  rw [decToIntRaw_intToDec]
  simp

/-! ## SQLite values and column affinity

`SqliteDict` (src/blockbot/collections.py) stores Python `str` / `int` /
`None` values in columns declared `TEXT` or `INTEGER`.  SQLite applies the
declared column's type affinity to every inserted value: TEXT affinity
renders integers as text; INTEGER affinity converts text to an integer
exactly when the conversion is lossless and reversible. -/

/-- A SQLite storage value as used by the source (NULL, INTEGER, TEXT). -/
inductive SqlValue
  | null
  | int (i : Int)
  | text (s : String)
deriving DecidableEq, Repr

/-- Declared column type; the source only declares TEXT and INTEGER. -/
inductive ColType
  | text
  | integer
deriving DecidableEq, Repr

/-- SQLite type affinity applied to a value inserted into a column. -/
def applyAffinity : ColType → SqlValue → SqlValue
  | _, .null => .null
  | .text, .int i => .text (intToDec i)
  | .text, .text s => .text s
  | .integer, .int i => .int i
  | .integer, .text s =>
    match decToInt s with
    | some i => .int i
    | none => .text s

theorem applyAffinity_idem : ∀ (ty : ColType) (v : SqlValue),
    applyAffinity ty (applyAffinity ty v) = applyAffinity ty v
  | ty, .null => by cases ty <;> rfl
  | .text, .int _ => rfl
  | .text, .text _ => rfl
  | .integer, .int _ => rfl
  | .integer, .text s => by
    simp only [applyAffinity]
    rcases hm : decToInt s with _ | i
    · simp [applyAffinity, hm]
    · simp [applyAffinity]

theorem applyAffinity_null_iff : ∀ (ty : ColType) (v : SqlValue),
    applyAffinity ty v = SqlValue.null ↔ v = SqlValue.null
  | ty, .null => by cases ty <;> simp [applyAffinity]
  | .text, .int _ => by simp [applyAffinity]
  | .text, .text _ => by simp [applyAffinity]
  | .integer, .int _ => by simp [applyAffinity]
  | .integer, .text s => by
    simp only [applyAffinity]
    rcases hm : decToInt s with _ | i <;> simp

/-- One column of a table schema: name, declared type, nullability
(mirrors the `(name, column_type, nullable)` triples of the source). -/
structure Col where
  name : String
  ty : ColType
  nullable : Bool
deriving DecidableEq, Repr

/-- Table schema: ordered columns and the designated primary key, as passed
to `SqliteDict.__init__`. -/
structure Schema where
  cols : List Col
  primaryKey : String
deriving DecidableEq, Repr

/-- Column names in schema order (`SqliteDict.columns`). -/
def Schema.colNames (s : Schema) : List String := s.cols.map Col.name

/-- Number of columns. -/
def Schema.ncols (s : Schema) : Nat := s.cols.length

/-- Position of the first column named `pk`. -/
def pkIdxAux (pk : String) : List Col → Nat
  | [] => 0
  | c :: rest => if c.name = pk then 0 else pkIdxAux pk rest + 1

/-- Index of the primary-key column. -/
def Schema.pkIdx (s : Schema) : Nat := pkIdxAux s.primaryKey s.cols

/-- Declared type of the first column named `pk`. -/
def pkTypeAux (pk : String) : List Col → ColType
  | [] => ColType.text
  | c :: rest => if c.name = pk then c.ty else pkTypeAux pk rest

/-- Declared type of the primary-key column. -/
def Schema.pkType (s : Schema) : ColType := pkTypeAux s.primaryKey s.cols

/-- The in-memory image of the backing SQLite table of one `SqliteDict`:
its schema plus the current multiset of rows (each row in schema order). -/
structure SqliteDict where
  schema : Schema
  rows : List (List SqlValue)
deriving DecidableEq, Repr

/-- Primary-key cell of a row. -/
def rowKey (s : Schema) (r : List SqlValue) : SqlValue := r.getD s.pkIdx SqlValue.null

/-- A bound query parameter compared against the primary-key column:
SQLite applies the column's affinity to the comparison operand. -/
def keyParam (s : Schema) (k : SqlValue) : SqlValue := applyAffinity s.pkType k

/-- `SELECT * FROM table WHERE pk = ?` followed by `fetchone()`. -/
def getRow (d : SqliteDict) (k : SqlValue) : Option (List SqlValue) :=
  d.rows.find? (fun r => rowKey d.schema r == keyParam d.schema k)

/-- `SqliteDict._tovalue`: `dict(zip(columns, row))` with the primary key
popped, as an association list in schema order. -/
def tovalue (s : Schema) (r : List SqlValue) : List (String × SqlValue) :=
  (s.colNames.zip r).filter (fun p => p.1 != s.primaryKey)

/-- `SqliteDict.__getitem__`: `none` models the raised `KeyError`. -/
def getItem (d : SqliteDict) (k : SqlValue) : Option (List (String × SqlValue)) :=
  (getRow d k).map (tovalue d.schema)

/-- `SqliteDict.__contains__`. -/
def containsD (d : SqliteDict) (k : SqlValue) : Bool := (getRow d k).isSome

/-- `SqliteDict.__delitem__`: `DELETE FROM table WHERE pk = ?` — removes the
matching rows and nothing else; no existence check is made. -/
def delItem (d : SqliteDict) (k : SqlValue) : SqliteDict :=
  { d with rows := d.rows.filter (fun r => rowKey d.schema r != keyParam d.schema k) }

/-- Errors an accessor of `SqliteDict` can raise. -/
inductive DictErr
  | keyMissing
  | notNull
deriving DecidableEq, Repr

/-- `SqliteDict.__delitem__` with its error channel: the method body has no
failure path (the DELETE is a silent no-op when the key is absent). -/
def delItemE (d : SqliteDict) (k : SqlValue) : Except DictErr SqliteDict :=
  Except.ok (delItem d k)

/-- First-match lookup in an association list (Python dict access, given
that a dict never holds a duplicate key). -/
def lookupStr (a : String) : List (String × SqlValue) → Option SqlValue
  | [] => none
  | p :: ps => if p.1 == a then some p.2 else lookupStr a ps

/-- `SqliteDict._torow` over the column list: `copy = {pk: key, **value}`
then `[copy[c] for c in columns]`; `none` models the `KeyError` when a
column is missing from the value dict. -/
def torowGo (pk : String) (key : SqlValue) (v : List (String × SqlValue)) :
    List Col → Option (List SqlValue)
  | [] => some []
  | c :: rest =>
    let cell :=
      match lookupStr c.name v with
      | some x => some x
      | none => if c.name == pk then some key else none
    match cell, torowGo pk key v rest with
    | some x, some xs => some (x :: xs)
    | _, _ => none

/-- `SqliteDict._torow`. -/
def torow (s : Schema) (key : SqlValue) (v : List (String × SqlValue)) :
    Option (List SqlValue) :=
  torowGo s.primaryKey key v s.cols

/-- A row violates a NOT NULL constraint. -/
def nullViolation (cols : List Col) (r : List SqlValue) : Bool :=
  (cols.zip r).any (fun p => p.2 == SqlValue.null && !p.1.nullable)

/-- `INSERT OR REPLACE INTO table VALUES(...)`: delete any row conflicting
on the primary key, then append the new row. -/
def insertOrReplace (s : Schema) (rows : List (List SqlValue)) (r : List SqlValue) :
    List (List SqlValue) :=
  rows.filter (fun r0 => rowKey s r0 != rowKey s r) ++ [r]

/-- `SqliteDict.__setitem__`: build the row with `_torow`, let SQLite apply
column affinity and check NOT NULL constraints, then INSERT OR REPLACE. -/
def setItemE (d : SqliteDict) (key : SqlValue) (v : List (String × SqlValue)) :
    Except DictErr SqliteDict :=
  match torow d.schema key v with
  | none => Except.error DictErr.keyMissing
  | some raw =>
    let r := List.zipWith (fun (c : Col) x => applyAffinity c.ty x) d.schema.cols raw
    if nullViolation d.schema.cols r then Except.error DictErr.notNull
    else Except.ok { d with rows := insertOrReplace d.schema d.rows r }

/-- Number of rows whose primary key matches `k`. -/
def countKey (d : SqliteDict) (k : SqlValue) : Nat :=
  (d.rows.filter (fun r => rowKey d.schema r == keyParam d.schema k)).length

/-- Primary keys of all rows, in table order. -/
def keysOf (d : SqliteDict) : List SqlValue := d.rows.map (rowKey d.schema)

/-- A cell is in affinity-normal form for its column and respects the
column's nullability (true of every cell SQLite actually stores). -/
def cellOk (c : Col) (v : SqlValue) : Bool :=
  applyAffinity c.ty v == v && (!(v == SqlValue.null) || c.nullable)

/-- A stored row has exactly one affinity-normal cell per schema column. -/
def rowOk : List Col → List SqlValue → Bool
  | [], [] => true
  | c :: cols, x :: r => cellOk c x && rowOk cols r
  | _, _ => false

/-- Well-formedness of a store: distinct column names, a primary-key column
that exists, rows of schema shape in affinity-normal form, and pairwise
distinct primary keys (the PRIMARY KEY constraint). -/
def SqliteDict.wf (d : SqliteDict) : Prop :=
  d.schema.colNames.Nodup ∧ d.schema.primaryKey ∈ d.schema.colNames ∧
    (∀ r ∈ d.rows, rowOk d.schema.cols r = true) ∧ (keysOf d).Nodup

instance (d : SqliteDict) : Decidable d.wf := by
  unfold SqliteDict.wf
  infer_instance

/-! ## CSV bulk export / import (`to_csv` / `load_csv`)

A CSV file is modelled at field level as a list of records (the `csv`
module's quoting layer is a bijection between field lists and file lines).
`csv.writer` renders `None` as the empty string and an `int` via `str`;
`csv.reader` yields every field back as a string. -/

/-- How `csv.writer` renders one SQLite value. -/
def sqlToCsv : SqlValue → String
  | SqlValue.null => ""
  | SqlValue.int i => intToDec i
  | SqlValue.text s => s

/-- `SqliteDict.to_csv`: a header row naming the columns in schema order,
then one record per table row. -/
def toCsvFile (d : SqliteDict) : List (List String) :=
  d.schema.colNames :: d.rows.map (fun r => r.map sqlToCsv)

/-- Errors `load_csv` can raise. -/
inductive LoadErr
  | emptyFile
  | headerMismatch
  | rowLength
deriving DecidableEq, Repr

/-- A CSV record inserted through `INSERT OR REPLACE ... VALUES(?, ...)`:
every field arrives as a string and the column's affinity is applied. -/
def csvRowToSql (cols : List Col) (r : List String) : List SqlValue :=
  List.zipWith (fun (c : Col) f => applyAffinity c.ty (SqlValue.text f)) cols r

/-- The in-transaction body of `load_csv`'s row loop: validate each record's
field count against the schema, then INSERT OR REPLACE it. -/
def insertAllRows (d : SqliteDict) : List (List String) → Except LoadErr SqliteDict
  | [] => Except.ok d
  | r :: rs =>
    if r.length ≠ d.schema.ncols then Except.error LoadErr.rowLength
    else
      insertAllRows
        { d with rows := insertOrReplace d.schema d.rows (csvRowToSql d.schema.cols r) } rs

/-- `SqliteDict.load_csv`: begin a transaction; read the header (an empty
file raises), require it to equal `self.columns`; insert all records; commit
on success, roll back to the pre-call table state and re-raise on any
failure.  Returns the table state after the call plus the raised error. -/
def loadCsvRun (d : SqliteDict) (file : List (List String)) :
    SqliteDict × Option LoadErr :=
  match file with
  | [] => (d, some LoadErr.emptyFile)
  | header :: body =>
    if header ≠ d.schema.colNames then (d, some LoadErr.headerMismatch)
    else
      match insertAllRows d body with
      | Except.ok d' => (d', none)
      | Except.error e => (d, some e)

/-! ## Rate limiter (`api.RateLimit`)

`RateLimit` keeps a deque of call timestamps with `maxlen = limit`, newest
at the left.  `wait()` pops the oldest timestamp when the deque is full,
sleeps `max((interval - (now - oldest)) / 1e9, 0)` seconds, then appends the
current timestamp at the left.  Timestamps and the interval are modelled in
the source's nanosecond integers; the division by `10 ** 9` is the unit
conversion for `time.sleep` and does not change which duration is slept. -/

/-- State of one `api.RateLimit`: budget, interval (ns) and the timestamp
deque (head = most recent addition, as in the source's `appendleft`). -/
structure RateLimit where
  limit : Nat
  interval : Int
  deque : List Int
deriving DecidableEq, Repr

/-- `RateLimit.wait` at current time `now` (ns).  Returns the new state and
the duration slept; `none` models the `IndexError` of popping from an empty
full deque (only reachable with `limit = 0`).  The recorded timestamp is
taken after the sleep, so it is `now + slept`. -/
def RateLimit.wait (rl : RateLimit) (now : Int) : Option (RateLimit × Int) :=
  if rl.deque.length = rl.limit then
    match rl.deque.getLast? with
    | none => none
    | some start =>
      let slept := max (rl.interval - (now - start)) 0
      some ({ rl with deque := (now + slept) :: rl.deque.dropLast }, slept)
  else
    some ({ rl with deque := now :: rl.deque }, 0)

/-- Run `wait` once per arrival time in `times`, collecting the durations
slept.  `none` if any call fails (never with a positive `limit`). -/
def RateLimit.waitSeq (rl : RateLimit) : List Int → Option (RateLimit × List Int)
  | [] => some (rl, [])
  | t :: ts =>
    match rl.wait t with
    | none => none
    | some (rl', s) =>
      match rl'.waitSeq ts with
      | none => none
      | some (rl'', ss) => some (rl'', s :: ss)

/-! ## Paginated walks

The walks are generators; we embed each as a function from a fetch oracle
(the remote side) to the trace of its observable events — remote fetches,
items yielded to the caller, and token writes to the backing store — plus
the final persisted token and whether an error was raised to the caller.
`fuel` bounds the number of loop iterations; every theorem supplies enough.

Items are abstracted as naturals. -/

/-- Outcome of one remote page fetch: a page with the provider's next
marker, a `TweepError` satisfying `is_authorization_error`, or any other
`TweepError`. -/
inductive FetchOutcome
  | page (items : List Nat) (next : Int)
  | authError
  | otherError
deriving DecidableEq, Repr

/-- Observable events of the follower walk: a remote fetch with the cursor
used, an item yielded to the caller, or a persisted write of the subject's
cursor into `ACCOUNTS_PROCESSED`. -/
inductive EventC
  | fetch (c : Int)
  | yieldItem (i : Nat)
  | persist (c : Int)
deriving DecidableEq, Repr

/-- Result of driving the follower walk to completion: its event trace, the
subject's persisted token after the call (`none` = no row), and whether an
error was raised to the caller. -/
structure RunResultC where
  events : List EventC
  store : Option Int
  raised : Bool
deriving DecidableEq, Repr

/-- `block_followers.followers(tweepy_api, account)`, as the source is:
load the persisted cursor (`-1` when no row) and return at once if it is
the terminal sentinel `0` (block_followers.py lines 93-100).  Otherwise the
generator's loop header evaluates `api.followers(...)` — a name the
`blockbot.api` module does not define: it has only `get_followers`, whose
own docstring example still calls `followers(...)`, a rename artifact — so
an `AttributeError` is raised before any remote fetch.  `AttributeError` is
not a `tweepy.TweepError`, so the `except` clause at line 114 persists
nothing and the error propagates to the caller.  The fetch oracle and the
fuel are the remote interface the walk is supposed to drive; the source
never consults them, and correspondingly neither does this definition. -/
def followersRun (fetch : Int → FetchOutcome) (fuel : Nat) (store : Option Int) :
    RunResultC :=
  if store.getD (-1) = 0 then { events := [], store := store, raised := false }
  else { events := [], store := store, raised := true }

/-- Observable events of a watermark walk (`tweets` / `replies`): a fetch
with the `max_id` used (`none` = newest), a yielded item, or a persisted
write of the subject's `max_id` into `TWEETS_PROCESSED` /
`REPLIES_PROCESSED` (the value is the stringified `id_state.max_id`, still
`None` when no page completed). -/
inductive EventW
  | fetch (m : Option Int)
  | yieldItem (i : Nat)
  | persist (m : Option Int)
deriving DecidableEq, Repr

/-- How a watermark walk's generator loop ends. -/
inductive ExitW
  | done
  | error (cs : Option Int)
  | fuelOut
deriving DecidableEq, Repr

/-- The `for page in cursor.pages()` loop of `api.search_tweets` inside
`block_media_replies.replies`: `m` is the tweepy `IdIterator`'s `max_id`,
`cs` the `id_state.max_id` (updated only after a page's items have all been
yielded).  Iteration stops on an empty page; `api.search_tweets` has no
error handler, so every `TweepError` — authorization errors included — is
re-raised with the current `id_state`. -/
def searchLoop (fetch : Option Int → FetchOutcome) :
    Nat → Option Int → Option Int → List EventW × ExitW
  | 0, _, _ => ([], ExitW.fuelOut)
  | fuel + 1, m, cs =>
    match fetch m with
    | FetchOutcome.page items next =>
      if items.isEmpty then ([EventW.fetch m], ExitW.done)
      else
        let rest := searchLoop fetch fuel (some next) (some next)
        (EventW.fetch m :: (items.map EventW.yieldItem ++ rest.1), rest.2)
    | FetchOutcome.authError => ([EventW.fetch m], ExitW.error cs)
    | FetchOutcome.otherError => ([EventW.fetch m], ExitW.error cs)

/-- Result of a watermark walk: trace, persisted `max_id` for the subject
(`none` = no row; `some none` = a row recorded before any completed page),
and whether an error was re-raised. -/
structure RunResultW where
  events : List EventW
  store : Option (Option Int)
  raised : Bool
deriving DecidableEq, Repr

/-- `block_media_replies.replies(tweepy_api, tweet)`, driven to completion:
load the persisted `max_id`, return at once if it is the terminal sentinel
`0`; otherwise run the search pagination; on normal exhaustion persist the
terminal sentinel, on a re-raised `TweepError` persist the current
`id_state` and propagate the error. -/
def repliesRun (fetch : Option Int → FetchOutcome) (fuel : Nat)
    (store : Option (Option Int)) : RunResultW :=
  if store.getD none = some 0 then { events := [], store := store, raised := false }
  else
    match searchLoop fetch fuel (store.getD none) (store.getD none) with
    | (evs, ExitW.done) =>
      { events := evs ++ [EventW.persist (some 0)], store := some (some 0), raised := false }
    | (evs, ExitW.error cs) =>
      { events := evs ++ [EventW.persist cs], store := some cs, raised := true }
    | (evs, ExitW.fuelOut) => { events := evs, store := store, raised := false }

/-- The `for page in cursor.pages()` loop of `api.user_timeline` inside
`block_media_replies.tweets`: the same watermark iteration as the search
walk, but wrapped in `user_timeline`'s handler (api.py lines 495-509): an
authorization error is swallowed — the generator simply ends — while any
other `TweepError` is re-raised with the current `id_state`. -/
def tweetsLoop (fetch : Option Int → FetchOutcome) :
    Nat → Option Int → Option Int → List EventW × ExitW
  | 0, _, _ => ([], ExitW.fuelOut)
  | fuel + 1, m, cs =>
    match fetch m with
    | FetchOutcome.page items next =>
      if items.isEmpty then ([EventW.fetch m], ExitW.done)
      else
        let rest := tweetsLoop fetch fuel (some next) (some next)
        (EventW.fetch m :: (items.map EventW.yieldItem ++ rest.1), rest.2)
    | FetchOutcome.authError => ([EventW.fetch m], ExitW.done)
    | FetchOutcome.otherError => ([EventW.fetch m], ExitW.error cs)

/-- `block_media_replies.tweets(tweepy_api, account)`, driven to completion:
load the persisted `max_id`, return at once if it is the terminal sentinel
`0`; otherwise run the timeline pagination; on normal exhaustion — a
swallowed authorization error included — persist the terminal sentinel, on
a re-raised `TweepError` persist the current `id_state` and propagate the
error. -/
def tweetsRun (fetch : Option Int → FetchOutcome) (fuel : Nat)
    (store : Option (Option Int)) : RunResultW :=
  if store.getD none = some 0 then { events := [], store := store, raised := false }
  else
    match tweetsLoop fetch fuel (store.getD none) (store.getD none) with
    | (evs, ExitW.done) =>
      { events := evs ++ [EventW.persist (some 0)], store := some (some 0), raised := false }
    | (evs, ExitW.error cs) =>
      { events := evs ++ [EventW.persist cs], store := some cs, raised := true }
    | (evs, ExitW.fuelOut) => { events := evs, store := store, raised := false }

/-! ### Chain providers

Concrete remote sides used to state the watermark-walk theorems: the
provider serves a fixed list of pages; the initial marker (`None` =
newest) names page 0 and marker `k > 0` names page `k`, the
provider-returned marker after page `k` being `k + 1`; after the last page
it serves the empty page that ends the iteration.  A failure can be
injected at one page index. -/

/-- Kind of injected remote failure. -/
inductive FailKind
  | auth
  | other
deriving DecidableEq, Repr

/-- The fetch outcome of an injected failure. -/
def FailKind.outcome : FailKind → FetchOutcome
  | FailKind.auth => FetchOutcome.authError
  | FailKind.other => FetchOutcome.otherError

/-- Page index named by a watermark marker (`none` = newest = page 0). -/
def markerIndex : Option Int → Option Nat
  | none => some 0
  | some v => if 0 < v then some v.toNat else none

/-- Marker naming page index `k` for the watermark chain provider. -/
def markerAt (k : Nat) : Option Int := if k = 0 then none else some (k : Int)

/-- Chain provider for a watermark walk; after the last page it serves the
empty page that ends the iteration. -/
def providerWOf (pages : List (List Nat)) (m : Option Int) : FetchOutcome :=
  match markerIndex m with
  | none => FetchOutcome.otherError
  | some k =>
    match pages[k]? with
    | none => FetchOutcome.page [] 0
    | some items => FetchOutcome.page items ((k : Int) + 1)

/-- Watermark chain provider with a failure injected at page index `j`. -/
def providerWFailAt (pages : List (List Nat)) (j : Nat) (kind : FailKind)
    (m : Option Int) : FetchOutcome :=
  match markerIndex m with
  | none => FetchOutcome.otherError
  | some k => if k = j then kind.outcome else providerWOf pages m

/-! ## Memoized gate (`block_follower` / `block_account`)

Both gates share one skeleton: check a store-backed "seen" set, on a miss
evaluate the decision policy, on a positive decision issue the external
block call (unless the remote side already reports the relation) and record
a snapshot row in the "blocked" store, and finally write the subject's key
into "seen" unconditionally.  `gateStep` is that skeleton with the per-call
data (key, value rows, the decision's value, the remote `blocking` flag)
precomputed; `blockFollowerCall` instantiates it exactly as
`block_followers.block_follower` does. -/

/-- The two stores a gate writes: the "seen" set and the "blocked" table. -/
structure GateState where
  seen : SqliteDict
  blocked : SqliteDict
deriving DecidableEq, Repr

/-- Per-invocation data of a gate call. -/
structure GateCall where
  key : SqlValue
  seenVal : List (String × SqlValue)
  blockedVal : List (String × SqlValue)
  decide : Bool
  alreadyBlocking : Bool
deriving DecidableEq, Repr

/-- One gate invocation.  Returns the new state, the number of decision
evaluations (0 or 1) and the number of external block calls (0 or 1); an
error models a raised exception, leaving the stores as they were at the
point of the raise. -/
def gateStep (st : GateState) (c : GateCall) :
    Except DictErr (GateState × Nat × Nat) :=
  if containsD st.seen c.key then Except.ok (st, 0, 0)
  else
    match
      (if c.decide then
        (setItemE st.blocked c.key c.blockedVal).map
          (fun b => (b, if c.alreadyBlocking then 0 else 1))
      else Except.ok (st.blocked, 0)) with
    | Except.error e => Except.error e
    | Except.ok (blocked', bc) =>
      match setItemE st.seen c.key c.seenVal with
      | Except.error e => Except.error e
      | Except.ok seen' => Except.ok ({ seen := seen', blocked := blocked' }, 1, bc)

/-- `n` repeated invocations of the gate on the same subject, summing the
decision evaluations and block calls. -/
def gateIter (c : GateCall) : Nat → GateState → Except DictErr (GateState × Nat × Nat)
  | 0, st => Except.ok (st, 0, 0)
  | n + 1, st =>
    match gateStep st c with
    | Except.error e => Except.error e
    | Except.ok (st', d, b) =>
      match gateIter c n st' with
      | Except.error e => Except.error e
      | Except.ok (st'', d2, b2) => Except.ok (st'', d + d2, b + b2)

/-- Schema of `ACCOUNTS_PROCESSED` (block_followers.py). -/
def accountsProcessedSchema : Schema :=
  { cols :=
      [ { name := "user_id", ty := ColType.text, nullable := false }
      , { name := "screen_name", ty := ColType.text, nullable := false }
      , { name := "cursor", ty := ColType.text, nullable := true } ]
    primaryKey := "user_id" }

/-- Schema of `FOLLOWERS_SEEN` (block_followers.py). -/
def followersSeenSchema : Schema :=
  { cols :=
      [ { name := "user_id", ty := ColType.text, nullable := false }
      , { name := "screen_name", ty := ColType.text, nullable := false } ]
    primaryKey := "user_id" }

/-- Schema of `FOLLOWERS_BLOCKED` (block_followers.py). -/
def followersBlockedSchema : Schema :=
  { cols :=
      [ { name := "follower_id", ty := ColType.text, nullable := false }
      , { name := "follower_screen_name", ty := ColType.text, nullable := false }
      , { name := "follower_default_profile", ty := ColType.integer, nullable := false }
      , { name := "follower_default_profile_image", ty := ColType.integer, nullable := false }
      , { name := "follower_protected", ty := ColType.integer, nullable := false }
      , { name := "follower_verified", ty := ColType.integer, nullable := false }
      , { name := "follower_favourites_count", ty := ColType.integer, nullable := false }
      , { name := "follower_followers_count", ty := ColType.integer, nullable := false }
      , { name := "follower_friends_count", ty := ColType.integer, nullable := false }
      , { name := "follower_listed_count", ty := ColType.integer, nullable := false }
      , { name := "follower_statuses_count", ty := ColType.integer, nullable := false }
      , { name := "follower_created_at", ty := ColType.text, nullable := false }
      , { name := "follower_description", ty := ColType.text, nullable := false }
      , { name := "follower_location", ty := ColType.text, nullable := false }
      , { name := "follower_name", ty := ColType.text, nullable := false }
      , { name := "follower_url", ty := ColType.text, nullable := false }
      , { name := "follower_withheld_in_countries", ty := ColType.text, nullable := false }
      , { name := "follower_withheld_scope", ty := ColType.text, nullable := false }
      , { name := "account_id", ty := ColType.text, nullable := false }
      , { name := "account_screen_name", ty := ColType.text, nullable := false } ]
    primaryKey := "follower_id" }

/-- The follower attributes `block_follower` reads (string attributes after
the source's `or ''` / `getattr` defaulting and `','.join`). -/
structure Follower where
  id : Int
  screen_name : String
  blocking : Bool
  default_profile : Bool
  default_profile_image : Bool
  protectedFlag : Bool
  verified : Bool
  favourites_count : Int
  followers_count : Int
  friends_count : Int
  listed_count : Int
  statuses_count : Int
  created_at : String
  description : String
  location : String
  name : String
  url : String
  withheld_in_countries : String
  withheld_scope : String
deriving DecidableEq, Repr

/-- The account being walked (its `id` and `screen_name`). -/
structure Account where
  id : Int
  screen_name : String
deriving DecidableEq, Repr

/-- Python's `int(bool)`. -/
def boolInt (b : Bool) : SqlValue := SqlValue.int (if b then 1 else 0)

/-- The `FOLLOWERS_BLOCKED` value dict literal of `block_follower`. -/
def blockedRowOf (account : Account) (f : Follower) : List (String × SqlValue) :=
  [ ("follower_screen_name", SqlValue.text f.screen_name)
  , ("follower_default_profile", boolInt f.default_profile)
  , ("follower_default_profile_image", boolInt f.default_profile_image)
  , ("follower_protected", boolInt f.protectedFlag)
  , ("follower_verified", boolInt f.verified)
  , ("follower_favourites_count", SqlValue.int f.favourites_count)
  , ("follower_followers_count", SqlValue.int f.followers_count)
  , ("follower_friends_count", SqlValue.int f.friends_count)
  , ("follower_listed_count", SqlValue.int f.listed_count)
  , ("follower_statuses_count", SqlValue.int f.statuses_count)
  , ("follower_created_at", SqlValue.text f.created_at)
  , ("follower_description", SqlValue.text f.description)
  , ("follower_location", SqlValue.text f.location)
  , ("follower_name", SqlValue.text f.name)
  , ("follower_url", SqlValue.text f.url)
  , ("follower_withheld_in_countries", SqlValue.text f.withheld_in_countries)
  , ("follower_withheld_scope", SqlValue.text f.withheld_scope)
  , ("account_id", SqlValue.text (intToDec account.id))
  , ("account_screen_name", SqlValue.text account.screen_name) ]

/-- The gate call `block_follower(tweepy_api, me, account, follower, ...)`
makes: key `str(follower.id)`, the decision being
`whitelist.should_block_user`'s verdict on this follower. -/
def blockFollowerCall (account : Account) (f : Follower) (verdict : Bool) : GateCall :=
  { key := SqlValue.text (intToDec f.id)
    seenVal := [("screen_name", SqlValue.text f.screen_name)]
    blockedVal := blockedRowOf account f
    decide := verdict
    alreadyBlocking := f.blocking }

/-- `block_follower` as one `gateStep` on `FOLLOWERS_SEEN` / `FOLLOWERS_BLOCKED`. -/
def blockFollower (st : GateState) (account : Account) (f : Follower) (verdict : Bool) :
    Except DictErr (GateState × Nat × Nat) :=
  gateStep st (blockFollowerCall account f verdict)

/-! ## Shared concrete fixtures -/

/-- A two-column store holding the rows named `{A:1, B:2}` in the spec. -/
def sampleDict : SqliteDict :=
  { schema :=
      { cols :=
          [ { name := "key", ty := ColType.text, nullable := false }
          , { name := "value", ty := ColType.integer, nullable := false } ]
        primaryKey := "key" }
    rows := [[SqlValue.text "A", SqlValue.int 1], [SqlValue.text "B", SqlValue.int 2]] }

/-! ## C3: terminal short-circuit -/

/-- C3: for a subject whose persisted resume token is the terminal sentinel
(cursor `0` for the cursor walk, `max_id` `0` for the watermark walk), any
invocation of the walk issues zero remote fetches and yields no items: its
event trace is empty, nothing is persisted, and no error is raised. -/
theorem claim_C3_theorem (fetchC : Int → FetchOutcome)
    (fetchW : Option Int → FetchOutcome) (fuelC fuelW : Nat) :
    followersRun fetchC fuelC (some 0) =
      { events := [], store := some 0, raised := false } ∧
    repliesRun fetchW fuelW (some (some 0)) =
      { events := [], store := some (some 0), raised := false } := by
  constructor <;> rfl

/-! ## C5: rate-limiter admission -/

/-- C5: with fewer than `max_calls` recorded timestamps `wait` records the
call and does not sleep; with a full history it removes the oldest
timestamp, sleeps `max(interval - (now - oldest), 0)` and records the new
call; and for `max_calls = 3, interval = 1000`, calls 1–3 are admitted
immediately while call 4 sleeps `max(1000 - (t4 - t1), 0)` — zero exactly
when the first call's timestamp is at least `1000` old. -/
theorem claim_C5_theorem (rl : RateLimit) (now t1 t2 t3 t4 : Int) :
    (rl.deque.length < rl.limit →
      rl.wait now = some ({ rl with deque := now :: rl.deque }, 0)) ∧
    (rl.deque.length = rl.limit → ∀ hne : rl.deque ≠ [],
      rl.wait now = some
        ({ rl with deque :=
            (now + max (rl.interval - (now - rl.deque.getLast hne)) 0) :: rl.deque.dropLast },
          max (rl.interval - (now - rl.deque.getLast hne)) 0)) ∧
    (RateLimit.mk 3 1000 []).waitSeq [t1, t2, t3, t4] = some
      (RateLimit.mk 3 1000 [t4 + max (1000 - (t4 - t1)) 0, t3, t2],
        [0, 0, 0, max (1000 - (t4 - t1)) 0]) ∧
    (max (1000 - (t4 - t1)) 0 = 0 ↔ 1000 ≤ t4 - t1) := by
  refine ⟨?_, ?_, ?_, ?_⟩
  · intro hlt
    have hne : ¬rl.deque.length = rl.limit := by omega
    simp [RateLimit.wait, hne]
  · intro hlen hne
    have hlast : rl.deque.getLast? = some (rl.deque.getLast hne) :=
      List.getLast?_eq_getLast _ hne
    simp [RateLimit.wait, hlen, hlast]
  · simp [RateLimit.waitSeq, RateLimit.wait, List.getLast?]
  · omega

/-- C5 witness: a full history of budget 2 and interval 1000 at times 0 and
5 makes a call at time 100 sleep 900; and the 3-call budget admits calls at
0, 10, 20 immediately and a call at 1500 with no sleep. -/
theorem claim_C5_witness :
    (RateLimit.mk 2 1000 [5, 0]).wait 100 =
      some (RateLimit.mk 2 1000 [1000, 5], 900) ∧
    (RateLimit.mk 3 1000 []).waitSeq [0, 10, 20, 1500] =
      some (RateLimit.mk 3 1000 [1500, 20, 10], [0, 0, 0, 0]) := by
  constructor
  · have h := (claim_C5_theorem (RateLimit.mk 2 1000 [5, 0]) 100 0 0 0 0).2.1
      (by decide) (by decide)
    simpa using h
  · have h := (claim_C5_theorem (RateLimit.mk 3 1000 []) 0 0 10 20 1500).2.2.1
    simpa using h

/-! ## C2: transactional import -/

theorem insertAllRows_error_of_badRow (body : List (List String)) :
    ∀ d : SqliteDict, (∃ r ∈ body, r.length ≠ d.schema.ncols) →
      ∃ e, insertAllRows d body = Except.error e := by
  induction body with
  | nil => intro d h; simp at h
  | cons r rs ih =>
    intro d h
    by_cases hr : r.length ≠ d.schema.ncols
    · exact ⟨LoadErr.rowLength, by simp [insertAllRows, hr]⟩
    · have hbad : ∃ r' ∈ rs, r'.length ≠ d.schema.ncols := by
        rcases h with ⟨r', hmem, hlen⟩
        rcases List.mem_cons.mp hmem with rfl | hmem'
        · exact absurd hlen hr
        · exact ⟨r', hmem', hlen⟩
      obtain ⟨e, he⟩ := ih
        { d with rows := insertOrReplace d.schema d.rows (csvRowToSql d.schema.cols r) }
        hbad
      exact ⟨e, by simp [insertAllRows, hr, he]⟩

/-- C2: if `load_csv` fails for any reason — a record whose field count
differs from the schema's column count included — the single surrounding
transaction is rolled back and the table is left exactly as before the
call; and a malformed record in the file's body does make the call fail. -/
theorem claim_C2_theorem (d : SqliteDict) (file : List (List String)) :
    ((loadCsvRun d file).2.isSome → (loadCsvRun d file).1 = d) ∧
    ((∃ r ∈ file.drop 1, r.length ≠ d.schema.ncols) →
      (loadCsvRun d file).2.isSome) := by
  constructor
  · intro hsome
    rcases file with _ | ⟨header, body⟩
    · rfl
    · by_cases hh : header = d.schema.colNames
      · rcases hins : insertAllRows d body with e | d'
        · simp [loadCsvRun, hh, hins]
        · exfalso
          have hres : (loadCsvRun d (header :: body)).2 = none := by
            simp [loadCsvRun, hh, hins]
          rw [hres] at hsome
          exact absurd hsome (by decide)
      · simp [loadCsvRun, hh]
  · intro hbad
    rcases file with _ | ⟨header, body⟩
    · rfl
    · by_cases hh : header = d.schema.colNames
      · obtain ⟨e, he⟩ := insertAllRows_error_of_badRow body d (by simpa using hbad)
        simp [loadCsvRun, hh, he]
      · simp [loadCsvRun, hh]

/-- C2 witness: importing a file whose second record has three fields into
the two-column store `{A:1, B:2}` fails and leaves the store exactly
`{A:1, B:2}`. -/
theorem claim_C2_witness :
    (loadCsvRun sampleDict [["key", "value"], ["C", "3", "extra"]]).1 = sampleDict ∧
    (loadCsvRun sampleDict [["key", "value"], ["C", "3", "extra"]]).2.isSome := by
  have h := claim_C2_theorem sampleDict [["key", "value"], ["C", "3", "extra"]]
  have hbad : ∃ r ∈ [["key", "value"], ["C", "3", "extra"]].drop 1,
      r.length ≠ sampleDict.schema.ncols := by decide
  exact ⟨h.1 (h.2 hbad), h.2 hbad⟩

/-! ## C7: header validation of `load_csv` -/

theorem insertAllRows_ok_iff (body : List (List String)) :
    ∀ d : SqliteDict, (∃ d', insertAllRows d body = Except.ok d') ↔
      ∀ r ∈ body, r.length = d.schema.ncols := by
  induction body with
  | nil => intro d; simp [insertAllRows]
  | cons r rs ih =>
    intro d
    by_cases hr : r.length = d.schema.ncols
    · have hrec := ih
        { d with rows := insertOrReplace d.schema d.rows (csvRowToSql d.schema.cols r) }
      have hstep : insertAllRows d (r :: rs) = insertAllRows
          { d with rows := insertOrReplace d.schema d.rows (csvRowToSql d.schema.cols r) }
          rs := by
        simp [insertAllRows, hr]
      rw [hstep]
      constructor
      · intro h r' hmem
        rcases List.mem_cons.mp hmem with rfl | hmem'
        · exact hr
        · exact (hrec.mp h) r' hmem'
      · intro h
        exact hrec.mpr (fun r' hm => h r' (List.mem_cons_of_mem _ hm))
    · constructor
      · intro h
        exfalso
        obtain ⟨d', hd'⟩ := h
        simp [insertAllRows, hr] at hd'
      · intro h
        exact absurd (h r (List.mem_cons_self _ _)) hr

/-- C7 counterexample: a header naming exactly the schema's columns but in
a different order (a permutation, hence the same set) is rejected by
`load_csv`, contradicting acceptance-by-set-equality. -/
theorem claim_C7_counterexample :
    List.Perm ["value", "key"] sampleDict.schema.colNames ∧
    (loadCsvRun sampleDict [["value", "key"], ["C", "3"]]).2 =
      some LoadErr.headerMismatch := by
  constructor
  · decide
  · rfl

/-- C7 amended: `load_csv` accepts a non-empty file exactly when its header
equals the schema's column names as a sequence — same names in the same
order — and every body record has the schema's column count; any other
header, a reordering of the same set included, is rejected. -/
theorem claim_C7_theorem (d : SqliteDict) (header : List String)
    (body : List (List String)) :
    (loadCsvRun d (header :: body)).2 = none ↔
      (header = d.schema.colNames ∧ ∀ r ∈ body, r.length = d.schema.ncols) := by
  by_cases hh : header = d.schema.colNames
  · have hiff := insertAllRows_ok_iff body d
    rcases hins : insertAllRows d body with e | d'
    · have hres : (loadCsvRun d (header :: body)).2 = some e := by
        simp [loadCsvRun, hh, hins]
      rw [hres]
      simp only [hh, true_and]
      constructor
      · intro h
        exact absurd h (by simp)
      · intro h
        obtain ⟨d'', hok⟩ := hiff.mpr h
        rw [hins] at hok
        exact absurd hok (by simp)
    · have hres : (loadCsvRun d (header :: body)).2 = none := by
        simp [loadCsvRun, hh, hins]
      rw [hres]
      simp only [hh, true_and]
      exact ⟨fun _ => hiff.mp ⟨d', hins⟩, fun _ => trivial⟩
  · simp [loadCsvRun, hh]

/-- C7 witness: with the header in schema order the same file is accepted. -/
theorem claim_C7_witness :
    (loadCsvRun sampleDict [["key", "value"], ["C", "3"]]).2 = none := by
  exact (claim_C7_theorem sampleDict ["key", "value"] [["C", "3"]]).mpr
    ⟨by decide, by decide⟩

/-! ## C8: delete on an absent key -/

/-- C8 counterexample: deleting the absent key `"C"` from the store
`{A:1, B:2}` does not signal `KeyError` — `__delitem__` returns normally
and leaves the table unchanged. -/
theorem claim_C8_counterexample :
    containsD sampleDict (SqlValue.text "C") = false ∧
    delItemE sampleDict (SqlValue.text "C") = Except.ok sampleDict := by
  constructor
  · decide
  · rfl

theorem find?_filter_of_imp {α : Type} (l : List α) (p q : α → Bool)
    (h : ∀ x, p x = true → q x = true) :
    (l.filter q).find? p = l.find? p := by
  induction l with
  | nil => rfl
  | cons a as ih =>
    by_cases hp : p a = true
    · rw [List.filter_cons, h a hp]
      simp [List.find?, hp, ih]
    · rw [List.filter_cons]
      by_cases hq : q a = true
      · simp only [hq, if_true]
        simp only [List.find?, Bool.not_eq_true] at hp ⊢
        simp [hp, ih]
      · simp only [hq, Bool.false_eq_true, if_false]
        simp only [List.find?, Bool.not_eq_true] at hp ⊢
        simp [hp, ih]

/-- C8 amended: `__delitem__` never signals an error.  On an absent key it
is a silent no-op (the table is unchanged); on a present key it removes the
matching row — the key is gone afterwards and every other key's row is
untouched. -/
theorem claim_C8_theorem (d : SqliteDict) (k : SqlValue) :
    (containsD d k = false → delItemE d k = Except.ok d) ∧
    (containsD d k = true →
      delItemE d k = Except.ok (delItem d k) ∧
      containsD (delItem d k) k = false ∧
      (∀ k', keyParam d.schema k' ≠ keyParam d.schema k →
        getRow (delItem d k) k' = getRow d k')) := by
  constructor
  · intro habs
    have hnone : d.rows.find?
        (fun r => rowKey d.schema r == keyParam d.schema k) = none := by
      unfold containsD getRow at habs
      exact Option.not_isSome_iff_eq_none.mp (by simp [habs])
    have hall := List.find?_eq_none.mp hnone
    have hfix : d.rows.filter
        (fun r => rowKey d.schema r != keyParam d.schema k) = d.rows := by
      apply List.filter_eq_self.mpr
      intro r hr
      have := hall r hr
      simpa using this
    unfold delItemE delItem
    rw [hfix]
  · intro _
    refine ⟨rfl, ?_, ?_⟩
    · unfold containsD getRow delItem
      simp only
      have : (d.rows.filter (fun r => rowKey d.schema r != keyParam d.schema k)).find?
          (fun r => rowKey d.schema r == keyParam d.schema k) = none := by
        apply List.find?_eq_none.mpr
        intro r hr
        have := List.of_mem_filter hr
        simpa using this
      simp [this]
    · intro k' hk
      unfold getRow delItem
      simp only
      apply find?_filter_of_imp
      intro r hr
      have heq : rowKey d.schema r = keyParam d.schema k' := by simpa using hr
      simp [heq, hk]

/-- C8 witness: deleting the present key `"A"` from `{A:1, B:2}` succeeds,
removes it, and leaves key `"B"` intact. -/
theorem claim_C8_witness :
    delItemE sampleDict (SqlValue.text "A") =
      Except.ok (delItem sampleDict (SqlValue.text "A")) ∧
    containsD (delItem sampleDict (SqlValue.text "A")) (SqlValue.text "A") = false ∧
    getRow (delItem sampleDict (SqlValue.text "A")) (SqlValue.text "B") =
      getRow sampleDict (SqlValue.text "B") := by
  have h := (claim_C8_theorem sampleDict (SqlValue.text "A")).2 (by decide)
  exact ⟨h.1, h.2.1, h.2.2 (SqlValue.text "B") (by decide)⟩

/-! ## C1: token advancement, persistence and resume -/

/-- C1 (code bug): at the failing input — a subject with a non-terminal
persisted cursor, here a fresh one with no `ACCOUNTS_PROCESSED` row — the
follower walk raises before any remote fetch, because `api.followers` does
not exist.  Whatever the remote side would answer and however much fuel the
pagination is given, the walk issues no fetch, yields no item and persists
no token, and an error propagates to the caller: the
fetch/advance/persist/resume cycle the claim describes never runs. -/
theorem claim_C1_theorem (fetch : Int → FetchOutcome) (fuel : Nat) :
    followersRun fetch fuel none =
      { events := [], store := none, raised := true } := rfl

/-! ## C9: authorization errors across walks -/

theorem markerIndex_markerAt (k : Nat) : markerIndex (markerAt k) = some k := by
  unfold markerIndex markerAt
  by_cases h : k = 0
  · simp [h]
  · have h2 : (0 : Int) < (k : Int) := by omega
    simp [h, h2]

theorem markerAt_succ (k : Nat) : (some ((k : Int) + 1) : Option Int) = markerAt (k + 1) := by
  unfold markerAt
  simp

theorem searchLoop_page_step (fetch : Option Int → FetchOutcome) (fuel : Nat)
    (m cs : Option Int) (next : Int) (items : List Nat)
    (hfetch : fetch m = FetchOutcome.page items next) (hne : items.isEmpty = false) :
    searchLoop fetch (fuel + 1) m cs =
      (EventW.fetch m ::
          (items.map EventW.yieldItem ++ (searchLoop fetch fuel (some next) (some next)).1),
        (searchLoop fetch fuel (some next) (some next)).2) := by
  simp only [searchLoop, hfetch, hne, Bool.false_eq_true, if_false]

theorem searchLoop_providerWFailAt (pages : List (List Nat)) (j : Nat) (kind : FailKind)
    (hnon : ∀ p ∈ pages, p ≠ []) :
    ∀ (fuel k : Nat), k ≤ j → j < pages.length → j - k < fuel →
      (searchLoop (providerWFailAt pages j kind) fuel (markerAt k) (markerAt k)).2
        = ExitW.error (markerAt j) := by
  intro fuel
  induction fuel with
  | zero => intro k hkj hj hf; omega
  | succ fuel ih =>
    intro k hkj hj hf
    by_cases hkeq : k = j
    · subst hkeq
      have hfetch : providerWFailAt pages k kind (markerAt k) = kind.outcome := by
        unfold providerWFailAt
        rw [markerIndex_markerAt]
        simp
      cases kind
      · simp only [searchLoop, hfetch, FailKind.outcome]
      · simp only [searchLoop, hfetch, FailKind.outcome]
    · have hklt : k < j := by omega
      have hk : k < pages.length := by omega
      have hfetch : providerWFailAt pages j kind (markerAt k) =
          FetchOutcome.page pages[k] ((k : Int) + 1) := by
        unfold providerWFailAt providerWOf
        rw [markerIndex_markerAt]
        simp only [hkeq, if_false]
        simp [List.getElem?_eq_getElem hk]
      have hne : pages[k].isEmpty = false := by
        have := hnon pages[k] (List.getElem_mem hk)
        rcases hx : pages[k] with _ | _
        · exact absurd hx this
        · rfl
      rw [searchLoop_page_step _ _ _ _ _ _ hfetch hne, markerAt_succ]
      exact ih (k + 1) (by omega) hj (by omega)

theorem repliesRun_of_error (fetch : Option Int → FetchOutcome) (fuel : Nat)
    (store : Option (Option Int)) (cs : Option Int) (h0 : store.getD none ≠ some 0)
    (herr : (searchLoop fetch fuel (store.getD none) (store.getD none)).2
      = ExitW.error cs) :
    repliesRun fetch fuel store =
      { events := (searchLoop fetch fuel (store.getD none) (store.getD none)).1
          ++ [EventW.persist cs],
        store := some cs, raised := true } := by
  unfold repliesRun
  rw [if_neg h0]
  rcases hL : searchLoop fetch fuel (store.getD none) (store.getD none) with ⟨evs, ex⟩
  rw [hL] at herr
  simp only at herr
  subst herr
  rfl

theorem tweetsLoop_page_step (fetch : Option Int → FetchOutcome) (fuel : Nat)
    (m cs : Option Int) (next : Int) (items : List Nat)
    (hfetch : fetch m = FetchOutcome.page items next) (hne : items.isEmpty = false) :
    tweetsLoop fetch (fuel + 1) m cs =
      (EventW.fetch m ::
          (items.map EventW.yieldItem ++ (tweetsLoop fetch fuel (some next) (some next)).1),
        (tweetsLoop fetch fuel (some next) (some next)).2) := by
  simp only [tweetsLoop, hfetch, hne, Bool.false_eq_true, if_false]

/-- The exit an injected failure at page `j` produces in the timeline walk:
an authorization error is swallowed (the generator ends normally), any
other error is re-raised carrying the current watermark. -/
def failExitW (kind : FailKind) (j : Nat) : ExitW :=
  match kind with
  | FailKind.auth => ExitW.done
  | FailKind.other => ExitW.error (markerAt j)

theorem tweetsLoop_providerWFailAt (pages : List (List Nat)) (j : Nat) (kind : FailKind)
    (hnon : ∀ p ∈ pages, p ≠ []) :
    ∀ (fuel k : Nat), k ≤ j → j < pages.length → j - k < fuel →
      (tweetsLoop (providerWFailAt pages j kind) fuel (markerAt k) (markerAt k)).2
        = failExitW kind j := by
  intro fuel
  induction fuel with
  | zero => intro k hkj hj hf; omega
  | succ fuel ih =>
    intro k hkj hj hf
    by_cases hkeq : k = j
    · subst hkeq
      have hfetch : providerWFailAt pages k kind (markerAt k) = kind.outcome := by
        unfold providerWFailAt
        rw [markerIndex_markerAt]
        simp
      cases kind
      · simp only [tweetsLoop, hfetch, FailKind.outcome, failExitW]
      · simp only [tweetsLoop, hfetch, FailKind.outcome, failExitW]
    · have hklt : k < j := by omega
      have hk : k < pages.length := by omega
      have hfetch : providerWFailAt pages j kind (markerAt k) =
          FetchOutcome.page pages[k] ((k : Int) + 1) := by
        unfold providerWFailAt providerWOf
        rw [markerIndex_markerAt]
        simp only [hkeq, if_false]
        simp [List.getElem?_eq_getElem hk]
      have hne : pages[k].isEmpty = false := by
        have := hnon pages[k] (List.getElem_mem hk)
        rcases hx : pages[k] with _ | _
        · exact absurd hx this
        · rfl
      rw [tweetsLoop_page_step _ _ _ _ _ _ hfetch hne, markerAt_succ]
      exact ih (k + 1) (by omega) hj (by omega)

theorem tweetsRun_of_done (fetch : Option Int → FetchOutcome) (fuel : Nat)
    (store : Option (Option Int)) (h0 : store.getD none ≠ some 0)
    (hdone : (tweetsLoop fetch fuel (store.getD none) (store.getD none)).2
      = ExitW.done) :
    tweetsRun fetch fuel store =
      { events := (tweetsLoop fetch fuel (store.getD none) (store.getD none)).1
          ++ [EventW.persist (some 0)],
        store := some (some 0), raised := false } := by
  unfold tweetsRun
  rw [if_neg h0]
  rcases hL : tweetsLoop fetch fuel (store.getD none) (store.getD none) with ⟨evs, ex⟩
  rw [hL] at hdone
  simp only at hdone
  subst hdone
  rfl

theorem tweetsRun_of_error (fetch : Option Int → FetchOutcome) (fuel : Nat)
    (store : Option (Option Int)) (cs : Option Int) (h0 : store.getD none ≠ some 0)
    (herr : (tweetsLoop fetch fuel (store.getD none) (store.getD none)).2
      = ExitW.error cs) :
    tweetsRun fetch fuel store =
      { events := (tweetsLoop fetch fuel (store.getD none) (store.getD none)).1
          ++ [EventW.persist cs],
        store := some cs, raised := true } := by
  unfold tweetsRun
  rw [if_neg h0]
  rcases hL : tweetsLoop fetch fuel (store.getD none) (store.getD none) with ⟨evs, ex⟩
  rw [hL] at herr
  simp only at herr
  subst herr
  rfl

/-- C9 counterexample: the search walk (`replies` over `api.search_tweets`)
re-raises an authorization error instead of returning silently, while the
timeline walk (`tweets` over `api.user_timeline`) swallows the same error —
so "every paginated walk returns silently on authorization-revoked" is
false. -/
theorem claim_C9_counterexample :
    (repliesRun (fun _ => FetchOutcome.authError) 3 none).raised = true ∧
    (tweetsRun (fun _ => FetchOutcome.authError) 3 none).raised = false := by
  constructor <;> rfl

/-- C9 amended: the timeline walk (`api.user_timeline`, driven by
`block_media_replies.tweets`) swallows an authorization-revoked error — it
stops yielding, propagates nothing, and marks the subject finished — while
re-raising every other remote failure; the search walk
(`api.search_tweets`, driven by `replies`) has no such handler and
re-raises every remote failure, authorization errors included; and the
follower walk never reaches its authorization handler at all — at any
non-terminal token it raises before any remote fetch, because
`api.followers` does not exist. -/
theorem claim_C9_theorem (pages : List (List Nat)) (j fuel : Nat)
    (hj : j < pages.length) (hnon : ∀ p ∈ pages, p ≠ [])
    (hfuel : pages.length + 1 ≤ fuel) :
    (tweetsRun (providerWFailAt pages j FailKind.auth) fuel none).raised = false ∧
    (tweetsRun (providerWFailAt pages j FailKind.auth) fuel none).store
      = some (some 0) ∧
    (tweetsRun (providerWFailAt pages j FailKind.other) fuel none).raised = true ∧
    (repliesRun (providerWFailAt pages j FailKind.auth) fuel none).raised = true ∧
    (repliesRun (providerWFailAt pages j FailKind.other) fuel none).raised = true ∧
    (∀ (fetchC : Int → FetchOutcome) (fuelC : Nat),
      followersRun fetchC fuelC none
        = { events := [], store := none, raised := true }) := by
  have hm0 : (none : Option (Option Int)).getD none = markerAt 0 := rfl
  have hTa := tweetsLoop_providerWFailAt pages j FailKind.auth hnon fuel 0 (by omega) hj
    (by omega)
  have hTo := tweetsLoop_providerWFailAt pages j FailKind.other hnon fuel 0 (by omega) hj
    (by omega)
  have hWa := searchLoop_providerWFailAt pages j FailKind.auth hnon fuel 0 (by omega) hj
    (by omega)
  have hWo := searchLoop_providerWFailAt pages j FailKind.other hnon fuel 0 (by omega) hj
    (by omega)
  have hrunTa : tweetsRun (providerWFailAt pages j FailKind.auth) fuel none =
      { events := (tweetsLoop (providerWFailAt pages j FailKind.auth) fuel
            (markerAt 0) (markerAt 0)).1 ++ [EventW.persist (some 0)],
        store := some (some 0), raised := false } := by
    apply tweetsRun_of_done
    · rw [hm0]; decide
    · rw [hm0]; exact hTa
  have hrunTo : (tweetsRun (providerWFailAt pages j FailKind.other) fuel none).raised
      = true := by
    rw [tweetsRun_of_error _ _ _ (markerAt j) (by rw [hm0]; decide) (by rw [hm0]; exact hTo)]
  have hrunWa : (repliesRun (providerWFailAt pages j FailKind.auth) fuel none).raised
      = true := by
    rw [repliesRun_of_error _ _ _ (markerAt j) (by rw [hm0]; decide) (by rw [hm0]; exact hWa)]
  have hrunWo : (repliesRun (providerWFailAt pages j FailKind.other) fuel none).raised
      = true := by
    rw [repliesRun_of_error _ _ _ (markerAt j) (by rw [hm0]; decide) (by rw [hm0]; exact hWo)]
  exact ⟨by rw [hrunTa], by rw [hrunTa], hrunTo, hrunWa, hrunWo, fun _ _ => rfl⟩

/-- C9 witness: two one-item pages with the failure injected at page 1, and
a concrete remote oracle for the follower walk. -/
theorem claim_C9_witness :
    (tweetsRun (providerWFailAt [[1], [2]] 1 FailKind.auth) 4 none).raised = false ∧
    (tweetsRun (providerWFailAt [[1], [2]] 1 FailKind.auth) 4 none).store
      = some (some 0) ∧
    (tweetsRun (providerWFailAt [[1], [2]] 1 FailKind.other) 4 none).raised = true ∧
    (repliesRun (providerWFailAt [[1], [2]] 1 FailKind.auth) 4 none).raised = true ∧
    (repliesRun (providerWFailAt [[1], [2]] 1 FailKind.other) 4 none).raised = true ∧
    followersRun (fun _ => FetchOutcome.page [7] 0) 4 none
      = { events := [], store := none, raised := true } := by
  have h := claim_C9_theorem [[1], [2]] 1 4 (by decide) (by decide) (by decide)
  exact ⟨h.1, h.2.1, h.2.2.1, h.2.2.2.1, h.2.2.2.2.1,
    h.2.2.2.2.2 (fun _ => FetchOutcome.page [7] 0) 4⟩

/-! ## Value dicts and `_torow` / `_tovalue` -/

/-- The value dict assigns exactly one value to each non-primary-key column:
walking the schema's columns in order and skipping the primary key, each
remaining column is matched by the next entry of `v` — same name, a value in
the column's affinity-normal form respecting its nullability — and `v` has
nothing else. -/
def validValueB (pk : String) : List Col → List (String × SqlValue) → Bool
  | [], v => v.isEmpty
  | c :: rest, v =>
    if c.name = pk then validValueB pk rest v
    else
      match v with
      | [] => false
      | p :: v2 => p.1 == c.name && cellOk c p.2 && validValueB pk rest v2

/-- `validValueB` against a schema. -/
def Schema.validValue (s : Schema) (v : List (String × SqlValue)) : Bool :=
  validValueB s.primaryKey s.cols v

/-- The row `_torow` produces from `{pk: key, **v}`: `key` at the
primary-key column, `v`'s values at the remaining columns. -/
def mergeVals (pk : String) (key : SqlValue) :
    List Col → List (String × SqlValue) → List SqlValue
  | [], _ => []
  | c :: rest, v =>
    if c.name = pk then key :: mergeVals pk key rest v
    else
      match v with
      | [] => []
      | p :: v2 => p.2 :: mergeVals pk key rest v2

theorem lookupStr_eq_none (a : String) (v : List (String × SqlValue))
    (h : ∀ p ∈ v, p.1 ≠ a) : lookupStr a v = none := by
  induction v with
  | nil => rfl
  | cons p ps ih =>
    have hp : (p.1 == a) = false := by
      simp only [beq_eq_false_iff_ne]
      exact h p (List.mem_cons_self _ _)
    simp only [lookupStr, hp, Bool.false_eq_true, if_false]
    exact ih (fun q hq => h q (List.mem_cons_of_mem _ hq))

theorem validValueB_names_ne_pk (pk : String) :
    ∀ (cols : List Col) (v : List (String × SqlValue)),
      validValueB pk cols v = true → ∀ p ∈ v, p.1 ≠ pk := by
  intro cols
  induction cols with
  | nil =>
    intro v hv p hp
    simp only [validValueB, List.isEmpty_iff] at hv
    subst hv
    simp at hp
  | cons c rest ih =>
    intro v hv p hp
    by_cases hc : c.name = pk
    · simp only [validValueB, hc, if_true] at hv
      exact ih v hv p hp
    · simp only [validValueB, hc, if_false] at hv
      rcases v with _ | ⟨q, v2⟩
      · simp at hv
      · simp only [Bool.and_eq_true, beq_iff_eq] at hv
        rcases List.mem_cons.mp hp with rfl | hp2
        · rw [hv.1.1]
          exact fun hcon => hc hcon
        · exact ih v2 hv.2 p hp2

theorem torowGo_cons_irrelevant (pk : String) (key : SqlValue)
    (p : String × SqlValue) (v : List (String × SqlValue)) :
    ∀ cols : List Col, p.1 ∉ cols.map Col.name →
      torowGo pk key (p :: v) cols = torowGo pk key v cols := by
  intro cols
  induction cols with
  | nil => intro _; rfl
  | cons c rest ih =>
    intro hmem
    have hne : (p.1 == c.name) = false := by
      simp only [beq_eq_false_iff_ne]
      intro hcon
      exact hmem (by simp [hcon])
    have hrest : p.1 ∉ rest.map Col.name := fun hcon => hmem (by simp [hcon])
    simp only [torowGo, lookupStr, hne, Bool.false_eq_true, if_false, ih hrest]

theorem nullViolation_eq_false_of_rowOk :
    ∀ (cols : List Col) (r : List SqlValue), rowOk cols r = true →
      nullViolation cols r = false := by
  intro cols
  induction cols with
  | nil =>
    intro r hr
    rcases r with _ | ⟨x, rs⟩
    · rfl
    · simp [rowOk] at hr
  | cons c rest ih =>
    intro r hr
    rcases r with _ | ⟨x, rs⟩
    · simp [rowOk] at hr
    · simp only [rowOk, Bool.and_eq_true] at hr
      have hcell := hr.1
      unfold cellOk at hcell
      simp only [Bool.and_eq_true] at hcell
      unfold nullViolation at ih ⊢
      simp only [List.zip_cons_cons, List.any_cons, Bool.or_eq_false_iff]
      constructor
      · rcases hx : (x == SqlValue.null) with _ | _
        · simp [hx]
        · have h2 := hcell.2
          rw [hx] at h2
          simp only [Bool.not_true, Bool.false_or] at h2
          simp [hx, h2]
      · exact ih rs hr.2

/-- Central lemma about `_torow` followed by SQLite's affinity conversion,
for a well-shaped value dict: the produced row is `mergeVals`, it has one
cell per column, reading it back with `_tovalue` returns exactly the value
dict, its primary-key cell carries the key, and the stored row is in
affinity-normal form. -/
theorem merge_spec (pk : String) (key : SqlValue) :
    ∀ (cols : List Col) (v : List (String × SqlValue)),
      (cols.map Col.name).Nodup → validValueB pk cols v = true →
      torowGo pk key v cols = some (mergeVals pk key cols v) ∧
      (mergeVals pk key cols v).length = cols.length ∧
      ((cols.map Col.name).zip
          (List.zipWith (fun (c : Col) x => applyAffinity c.ty x) cols
            (mergeVals pk key cols v))).filter (fun p => p.1 != pk) = v ∧
      (pk ∈ cols.map Col.name →
        (List.zipWith (fun (c : Col) x => applyAffinity c.ty x) cols
            (mergeVals pk key cols v)).getD (pkIdxAux pk cols) SqlValue.null
          = applyAffinity (pkTypeAux pk cols) key) ∧
      (key ≠ SqlValue.null →
        rowOk cols (List.zipWith (fun (c : Col) x => applyAffinity c.ty x) cols
          (mergeVals pk key cols v)) = true) := by
  intro cols
  induction cols with
  | nil =>
    intro v _ hv
    simp only [validValueB, List.isEmpty_iff] at hv
    subst hv
    refine ⟨rfl, rfl, rfl, ?_, fun _ => rfl⟩
    intro hmem
    simp at hmem
  | cons c rest ih =>
    intro v hnd hv
    simp only [List.map_cons, List.nodup_cons] at hnd
    obtain ⟨hnd1, hnd2⟩ := hnd
    by_cases hc : c.name = pk
    · simp only [validValueB, hc, if_true] at hv
      obtain ⟨ih1, ih2, ih3, ih4, ih5⟩ := ih v hnd2 hv
      have hnames := validValueB_names_ne_pk pk rest v hv
      have hlook : lookupStr c.name v = none := by
        apply lookupStr_eq_none
        intro p hp
        rw [hc]
        exact hnames p hp
      have hmerge : mergeVals pk key (c :: rest) v = key :: mergeVals pk key rest v := by
        simp [mergeVals, hc]
      have hbeq : (c.name == pk) = true := by simp [hc]
      refine ⟨?_, ?_, ?_, ?_, ?_⟩
      · simp only [torowGo, hlook, hbeq, if_true, ih1, hmerge]
      · rw [hmerge]
        simp [ih2]
      · rw [hmerge]
        simp only [List.zipWith_cons_cons, List.map_cons, List.zip_cons_cons,
          List.filter_cons]
        have hone : (c.name != pk) = false := by simp [hc]
        simp only [hone, Bool.false_eq_true, if_false]
        exact ih3
      · intro _
        rw [hmerge]
        simp only [List.zipWith_cons_cons]
        have hidx : pkIdxAux pk (c :: rest) = 0 := by simp [pkIdxAux, hc]
        have hty : pkTypeAux pk (c :: rest) = c.ty := by simp [pkTypeAux, hc]
        rw [hidx, hty]
        rfl
      · intro hknn
        rw [hmerge]
        simp only [List.zipWith_cons_cons, rowOk, Bool.and_eq_true]
        constructor
        · unfold cellOk
          simp only [Bool.and_eq_true]
          constructor
          · simp [applyAffinity_idem]
          · have : applyAffinity c.ty key ≠ SqlValue.null := by
              intro hcon
              exact hknn ((applyAffinity_null_iff c.ty key).mp hcon)
            simp [this]
        · exact ih5 hknn
    · simp only [validValueB, hc, if_false] at hv
      rcases v with _ | ⟨p, v2⟩
      · simp at hv
      · simp only [Bool.and_eq_true, beq_iff_eq] at hv
        obtain ⟨⟨hp1, hp2⟩, hv2⟩ := hv
        obtain ⟨ih1, ih2, ih3, ih4, ih5⟩ := ih v2 hnd2 hv2
        have hmerge : mergeVals pk key (c :: rest) (p :: v2)
            = p.2 :: mergeVals pk key rest v2 := by
          simp [mergeVals, hc]
        have hpeq : (p.1 == c.name) = true := by simp [hp1]
        have haff : applyAffinity c.ty p.2 = p.2 := by
          unfold cellOk at hp2
          simp only [Bool.and_eq_true, beq_iff_eq] at hp2
          exact hp2.1
        have hrest : p.1 ∉ rest.map Col.name := by
          rw [hp1]
          exact hnd1
        refine ⟨?_, ?_, ?_, ?_, ?_⟩
        · simp only [torowGo, lookupStr, hpeq, if_true,
            torowGo_cons_irrelevant pk key p v2 rest hrest, ih1, hmerge]
        · rw [hmerge]
          simp [ih2]
        · rw [hmerge]
          simp only [List.zipWith_cons_cons, List.map_cons, List.zip_cons_cons,
            List.filter_cons]
          have hone : (c.name != pk) = true := by simp [hc]
          simp only [hone, if_true, haff]
          rw [ih3]
          have : (c.name, p.2) = p := by
            rw [← hp1]
          · exact congrArg (fun q => q :: v2) this
        · intro hpkmem
          have hpkrest : pk ∈ rest.map Col.name := by
            simp only [List.map_cons, List.mem_cons] at hpkmem
            rcases hpkmem with h1 | h1
            · exact absurd h1.symm hc
            · exact h1
          rw [hmerge]
          simp only [List.zipWith_cons_cons]
          have hidx : pkIdxAux pk (c :: rest) = pkIdxAux pk rest + 1 := by
            simp [pkIdxAux, hc]
          have hty : pkTypeAux pk (c :: rest) = pkTypeAux pk rest := by
            simp [pkTypeAux, hc]
          rw [hidx, hty]
          simpa using ih4 hpkrest
        · intro hknn
          rw [hmerge]
          simp only [List.zipWith_cons_cons, rowOk, Bool.and_eq_true]
          exact ⟨by rw [haff]; exact hp2, ih5 hknn⟩

theorem find?_append_of_none {α : Type} (l1 l2 : List α) (p : α → Bool)
    (h : ∀ x ∈ l1, p x = false) : (l1 ++ l2).find? p = l2.find? p := by
  induction l1 with
  | nil => rfl
  | cons a l ih =>
    have ha := h a (List.mem_cons_self _ _)
    simp only [List.cons_append, List.find?, ha, Bool.false_eq_true]
    exact ih (fun x hx => h x (List.mem_cons_of_mem _ hx))

theorem filter_key_length_le_one (s : Schema) (kp : SqlValue) :
    ∀ rows : List (List SqlValue), (rows.map (rowKey s)).Nodup →
      (rows.filter (fun r => rowKey s r == kp)).length ≤ 1 := by
  intro rows
  induction rows with
  | nil => intro _; simp
  | cons r rs ih =>
    intro hnd
    simp only [List.map_cons, List.nodup_cons] at hnd
    obtain ⟨hmem, hnd2⟩ := hnd
    rw [List.filter_cons]
    by_cases hr : (rowKey s r == kp) = true
    · have hkp : rowKey s r = kp := by simpa using hr
      have hnil : rs.filter (fun q => rowKey s q == kp) = [] := by
        rw [List.filter_eq_nil_iff]
        intro q hq hcon
        apply hmem
        have h3 : rowKey s q = rowKey s r := by
          have hq2 : rowKey s q = kp := by simpa using hcon
          rw [hq2, hkp]
        exact List.mem_map.mpr ⟨q, hq, h3⟩
      simp [hr, hnil]
    · have hr' : (rowKey s r == kp) = false := by
        simpa using hr
      simp only [hr', Bool.false_eq_true, if_false]
      exact ih hnd2

/-- `__setitem__` on a well-formed store with a well-shaped value dict:
succeeds, and the updated store answers `get` with exactly the value dict
(primary key removed), reports membership, keeps exactly one row for the
key, and stays well-formed with the same schema. -/
theorem setItemE_spec (d : SqliteDict) (key : SqlValue) (v : List (String × SqlValue))
    (hwf : d.wf) (hv : d.schema.validValue v = true) (hkey : key ≠ SqlValue.null) :
    ∃ d', setItemE d key v = Except.ok d' ∧ d'.schema = d.schema ∧
      getItem d' key = some v ∧ containsD d' key = true ∧ countKey d' key = 1 ∧
      d'.wf := by
  obtain ⟨hndup, hpkmem, hrows, hkeys⟩ := hwf
  have hnd : (d.schema.cols.map Col.name).Nodup := hndup
  obtain ⟨hm1, hm2, hm3, hm4, hm5⟩ :=
    merge_spec d.schema.primaryKey key d.schema.cols v hnd hv
  set row := List.zipWith (fun (c : Col) x => applyAffinity c.ty x) d.schema.cols
    (mergeVals d.schema.primaryKey key d.schema.cols v) with hrow
  have hrowOk : rowOk d.schema.cols row = true := hm5 hkey
  have hnv : nullViolation d.schema.cols row = false :=
    nullViolation_eq_false_of_rowOk _ _ hrowOk
  have hrk : rowKey d.schema row = keyParam d.schema key := by
    unfold rowKey keyParam Schema.pkIdx Schema.pkType
    exact hm4 hpkmem
  have hsets : setItemE d key v =
      Except.ok { d with rows := insertOrReplace d.schema d.rows row } := by
    unfold setItemE torow
    rw [hm1]
    simp only [hnv, Bool.false_eq_true, if_false, ← hrow]
  refine ⟨{ d with rows := insertOrReplace d.schema d.rows row }, hsets, rfl, ?_, ?_, ?_, ?_⟩
  · unfold getItem getRow insertOrReplace
    have hskip : ∀ r ∈ d.rows.filter (fun r0 => rowKey d.schema r0 != rowKey d.schema row),
        (rowKey d.schema r == keyParam d.schema key) = false := by
      intro r hr
      have := List.of_mem_filter hr
      rw [hrk] at this
      simpa using this
    rw [find?_append_of_none _ _ _ hskip]
    have hfind : List.find? (fun r => rowKey d.schema r == keyParam d.schema key) [row]
        = some row := by
      simp [List.find?, hrk]
    rw [hfind]
    show some (tovalue d.schema row) = some v
    refine congrArg some ?_
    unfold tovalue Schema.colNames
    exact hm3
  · unfold containsD getRow insertOrReplace
    have hskip : ∀ r ∈ d.rows.filter (fun r0 => rowKey d.schema r0 != rowKey d.schema row),
        (rowKey d.schema r == keyParam d.schema key) = false := by
      intro r hr
      have := List.of_mem_filter hr
      rw [hrk] at this
      simpa using this
    rw [find?_append_of_none _ _ _ hskip]
    simp [List.find?, hrk]
  · unfold countKey insertOrReplace
    rw [List.filter_append]
    have hnil : (d.rows.filter (fun r0 => rowKey d.schema r0 != rowKey d.schema row)).filter
        (fun r => rowKey d.schema r == keyParam d.schema key) = [] := by
      rw [List.filter_eq_nil_iff]
      intro r hr
      have := List.of_mem_filter hr
      rw [hrk] at this
      simpa using this
    rw [hnil]
    simp [List.filter, hrk]
  · refine ⟨hndup, hpkmem, ?_, ?_⟩
    · intro r hr
      rcases List.mem_append.mp hr with h1 | h1
      · exact hrows r (List.mem_of_mem_filter h1)
      · rw [List.mem_singleton.mp h1]
        exact hrowOk
    · unfold keysOf insertOrReplace
      simp only
      rw [List.map_append, List.nodup_append]
      refine ⟨?_, by simp, ?_⟩
      · exact List.Nodup.sublist (List.Sublist.map _ (List.filter_sublist _)) hkeys
      · intro a ha hb
        simp only [List.map_singleton, List.mem_singleton] at hb
        subst hb
        obtain ⟨q, hq, hqk⟩ := List.mem_map.mp ha
        have := List.of_mem_filter hq
        rw [hqk] at this
        simp at this

/-! ## C10: set / get / contains and last-write-wins -/

/-- Empty store with one TEXT value column, for the C10 counterexample. -/
def c10dict : SqliteDict :=
  { schema :=
      { cols :=
          [ { name := "k", ty := ColType.text, nullable := false }
          , { name := "v", ty := ColType.text, nullable := false } ]
        primaryKey := "k" }
    rows := [] }

/-- C10 counterexample: storing the integer `5` under the TEXT column `v`
and reading the key back returns the text `"5"`, not the integer `5` —
SQLite's TEXT affinity converts the inserted integer — so "get returns
exactly v" fails for a value whose type differs from the column's declared
type. -/
theorem claim_C10_counterexample :
    (setItemE c10dict (SqlValue.text "A") [("v", SqlValue.int 5)]).toOption.map
        (fun d' => getItem d' (SqlValue.text "A"))
      = some (some [("v", SqlValue.text "5")]) ∧
    [("v", SqlValue.text "5")] ≠ [("v", SqlValue.int 5)] := by
  constructor
  · rfl
  · decide

/-- C10 amended: for every well-formed store, non-NULL key matching the
primary-key column, and value dict assigning to each non-primary-key column
exactly one value of that column's declared type (in affinity-normal form,
NULL only where the column is nullable): after `set(k, v)`, `get(k)`
returns exactly `v` (the primary-key column removed), `contains(k)` is
true, and the table holds exactly one row for `k`; setting the same key
again replaces the row — `get` then returns the new value and the table
still holds exactly one row for `k`. -/
theorem claim_C10_theorem (d : SqliteDict) (key : SqlValue)
    (v v2 : List (String × SqlValue)) (hwf : d.wf)
    (hv : d.schema.validValue v = true) (hv2 : d.schema.validValue v2 = true)
    (hkey : key ≠ SqlValue.null) :
    ∃ d' d'', setItemE d key v = Except.ok d' ∧
      getItem d' key = some v ∧ containsD d' key = true ∧ countKey d' key = 1 ∧
      setItemE d' key v2 = Except.ok d'' ∧ getItem d'' key = some v2 ∧
      containsD d'' key = true ∧ countKey d'' key = 1 := by
  obtain ⟨d', h1, hsch, hget, hcont, hcnt, hwf'⟩ := setItemE_spec d key v hwf hv hkey
  have hv2' : d'.schema.validValue v2 = true := by rw [hsch]; exact hv2
  obtain ⟨d'', h2, hsch2, hget2, hcont2, hcnt2, _⟩ :=
    setItemE_spec d' key v2 hwf' hv2' hkey
  exact ⟨d', d'', h1, hget, hcont, hcnt, h2, hget2, hcont2, hcnt2⟩

/-- C10 witness: on the store `{A:1, B:2}`, setting key `"C"` to value 3
then to value 4. -/
theorem claim_C10_witness :
    ∃ d' d'', setItemE sampleDict (SqlValue.text "C") [("value", SqlValue.int 3)]
        = Except.ok d' ∧
      getItem d' (SqlValue.text "C") = some [("value", SqlValue.int 3)] ∧
      containsD d' (SqlValue.text "C") = true ∧ countKey d' (SqlValue.text "C") = 1 ∧
      setItemE d' (SqlValue.text "C") [("value", SqlValue.int 4)] = Except.ok d'' ∧
      getItem d'' (SqlValue.text "C") = some [("value", SqlValue.int 4)] ∧
      containsD d'' (SqlValue.text "C") = true ∧ countKey d'' (SqlValue.text "C") = 1 := by
  exact claim_C10_theorem sampleDict (SqlValue.text "C")
    [("value", SqlValue.int 3)] [("value", SqlValue.int 4)]
    (by decide) (by decide) (by decide) (by decide)

/-! ## C6: CSV round trip -/

theorem cell_roundtrip (c : Col) (val : SqlValue) (hok : cellOk c val = true)
    (hnn : val ≠ SqlValue.null) :
    applyAffinity c.ty (SqlValue.text (sqlToCsv val)) = val := by
  unfold cellOk at hok
  simp only [Bool.and_eq_true, beq_iff_eq] at hok
  have hnorm := hok.1
  cases hty : c.ty <;> rcases val with _ | i | s
  · exact absurd rfl hnn
  · rw [hty] at hnorm
    exact absurd hnorm (by simp [applyAffinity])
  · rfl
  · exact absurd rfl hnn
  · show applyAffinity ColType.integer (SqlValue.text (intToDec i)) = SqlValue.int i
    have hred : applyAffinity ColType.integer (SqlValue.text (intToDec i))
        = match decToInt (intToDec i) with
          | some j => SqlValue.int j
          | none => SqlValue.text (intToDec i) := rfl
    rw [hred, decToInt_intToDec]
  · rw [hty] at hnorm
    exact hnorm

theorem rowOk_length : ∀ (cols : List Col) (r : List SqlValue),
    rowOk cols r = true → r.length = cols.length := by
  intro cols
  induction cols with
  | nil =>
    intro r hr
    rcases r with _ | ⟨x, rs⟩
    · rfl
    · simp [rowOk] at hr
  | cons c rest ih =>
    intro r hr
    rcases r with _ | ⟨x, rs⟩
    · simp [rowOk] at hr
    · simp only [rowOk, Bool.and_eq_true] at hr
      simp [ih rs hr.2]

theorem row_roundtrip : ∀ (cols : List Col) (r : List SqlValue),
    rowOk cols r = true → SqlValue.null ∉ r →
    csvRowToSql cols (r.map sqlToCsv) = r := by
  intro cols
  induction cols with
  | nil =>
    intro r hr _
    rcases r with _ | ⟨x, rs⟩
    · rfl
    · simp [rowOk] at hr
  | cons c rest ih =>
    intro r hr hnn
    rcases r with _ | ⟨x, rs⟩
    · simp [rowOk] at hr
    · simp only [rowOk, Bool.and_eq_true] at hr
      have hx : x ≠ SqlValue.null := fun hcon => hnn (by rw [hcon]; exact List.mem_cons_self _ _)
      have hxs : SqlValue.null ∉ rs := fun hcon => hnn (List.mem_cons_of_mem _ hcon)
      simp only [List.map_cons, csvRowToSql, List.zipWith_cons_cons]
      rw [cell_roundtrip c x hr.1 hx]
      have := ih rs hr.2 hxs
      unfold csvRowToSql at this
      rw [this]

theorem insertAllRows_exact (sch : Schema) :
    ∀ (rows0 acc : List (List SqlValue)),
      (∀ r ∈ rows0, csvRowToSql sch.cols (r.map sqlToCsv) = r ∧ r.length = sch.cols.length) →
      ((acc ++ rows0).map (rowKey sch)).Nodup →
      insertAllRows { schema := sch, rows := acc }
          (rows0.map (fun r => r.map sqlToCsv))
        = Except.ok { schema := sch, rows := acc ++ rows0 } := by
  intro rows0
  induction rows0 with
  | nil =>
    intro acc _ _
    simp [insertAllRows]
  | cons r rest ih =>
    intro acc hrt hnd
    obtain ⟨hr1, hr2⟩ := hrt r (List.mem_cons_self _ _)
    have hlen : ¬((r.map sqlToCsv).length ≠ sch.cols.length) := by
      rw [List.length_map, hr2]
      exact fun h => h rfl
    rw [List.map_append] at hnd
    have hnd2 := hnd
    rw [List.nodup_append] at hnd2
    obtain ⟨hndacc, hndrest, hdisj⟩ := hnd2
    have hfix : acc.filter (fun r0 => rowKey sch r0 != rowKey sch r) = acc := by
      apply List.filter_eq_self.mpr
      intro a ha
      have hne : rowKey sch a ≠ rowKey sch r := by
        intro hcon
        exact hdisj (List.mem_map_of_mem _ ha) (by rw [hcon]; simp)
      simpa using hne
    have hstep : insertAllRows { schema := sch, rows := acc }
        ((r :: rest).map (fun q => q.map sqlToCsv))
        = insertAllRows { schema := sch, rows := acc ++ [r] }
          (rest.map (fun q => q.map sqlToCsv)) := by
      simp only [List.map_cons, insertAllRows, Schema.ncols, hlen, if_false]
      congr 1
      unfold insertOrReplace
      rw [hr1, hfix]
    rw [hstep]
    have hrt2 : ∀ q ∈ rest, csvRowToSql sch.cols (q.map sqlToCsv) = q ∧
        q.length = sch.cols.length := fun q hq => hrt q (List.mem_cons_of_mem _ hq)
    have hnd3 : (((acc ++ [r]) ++ rest).map (rowKey sch)).Nodup := by
      rw [List.append_assoc, List.singleton_append, List.map_append]
      exact hnd
    have := ih (acc ++ [r]) hrt2 hnd3
    rw [this]
    rw [List.append_assoc, List.singleton_append]

/-- C6 counterexample: a store holding one row whose nullable TEXT column is
NULL; `to_csv` writes the NULL as the empty string and `load_csv` re-imports
it as the empty text value, so the export/import round trip into an empty
identically-shaped store does not reproduce the original rows. -/
def c6dict : SqliteDict :=
  { schema :=
      { cols :=
          [ { name := "k", ty := ColType.text, nullable := false }
          , { name := "v", ty := ColType.text, nullable := true } ]
        primaryKey := "k" }
    rows := [[SqlValue.text "A", SqlValue.null]] }

theorem claim_C6_counterexample :
    loadCsvRun { schema := c6dict.schema, rows := [] } (toCsvFile c6dict)
      = ({ schema := c6dict.schema, rows := [[SqlValue.text "A", SqlValue.text ""]] },
          none) ∧
    [[SqlValue.text "A", SqlValue.text ""]] ≠ c6dict.rows := by
  constructor
  · rfl
  · decide

/-- C6 amended: for a well-formed store none of whose stored values is
NULL, `bulk_export` (`to_csv`) followed by `bulk_load` (`load_csv`) into an
empty store of identical schema reproduces exactly the original rows —
integer values included, via SQLite's lossless INTEGER affinity conversion.
A NULL value is exported as the empty string and re-imported as empty text,
so rows containing NULL are not reproduced. -/
theorem loadCsvRun_cons (d : SqliteDict) (header : List String)
    (body : List (List String)) :
    loadCsvRun d (header :: body) =
      if header ≠ d.schema.colNames then (d, some LoadErr.headerMismatch)
      else
        match insertAllRows d body with
        | Except.ok d' => (d', none)
        | Except.error e => (d, some e) := rfl

theorem claim_C6_theorem (d : SqliteDict) (hwf : d.wf)
    (hnn : ∀ r ∈ d.rows, SqlValue.null ∉ r) :
    loadCsvRun { schema := d.schema, rows := [] } (toCsvFile d) = (d, none) := by
  obtain ⟨hndup, hpkmem, hrows, hkeys⟩ := hwf
  have hins := insertAllRows_exact d.schema d.rows []
    (fun r hr => ⟨row_roundtrip d.schema.cols r (hrows r hr) (hnn r hr),
      rowOk_length d.schema.cols r (hrows r hr)⟩)
    (by simpa using hkeys)
  simp only [List.nil_append] at hins
  unfold toCsvFile
  rw [loadCsvRun_cons]
  rw [if_neg (show ¬(d.schema.colNames
      ≠ ({ schema := d.schema, rows := [] } : SqliteDict).schema.colNames) from
    fun h => h rfl)]
  rw [hins]

/-- C6 witness: the store `{A:1, B:2}` (TEXT key, INTEGER value) round-trips
exactly through `to_csv` / `load_csv`. -/
theorem claim_C6_witness :
    loadCsvRun { schema := sampleDict.schema, rows := [] } (toCsvFile sampleDict)
      = (sampleDict, none) := by
  exact claim_C6_theorem sampleDict (by decide) (by decide)

/-! ## C4: memoized gate convergence -/

theorem gateStep_of_contains (st : GateState) (c : GateCall)
    (h : containsD st.seen c.key = true) : gateStep st c = Except.ok (st, 0, 0) := by
  unfold gateStep
  rw [if_pos h]

theorem gateIter_of_contains (c : GateCall) (st : GateState)
    (h : containsD st.seen c.key = true) :
    ∀ n, gateIter c n st = Except.ok (st, 0, 0) := by
  intro n
  induction n with
  | zero => rfl
  | succ n ih =>
    unfold gateIter
    rw [gateStep_of_contains st c h]
    simp only
    rw [ih]

/-- C4: on well-formed stores, any number of repeated gate invocations on
one subject evaluates the decision policy at most once in total, issues at
most one external block call, leaves at most one row for the subject's key
in the blocked table, records the subject's key in the seen set from the
first completed invocation on (whether or not the decision was true), and
keeps the blocked table well-formed.  This covers `block_follower` and
`block_account`, which are instances of `gateStep` (see
`blockFollowerCall`). -/
theorem claim_C4_theorem (st : GateState) (c : GateCall) (n : Nat)
    (hwfS : st.seen.wf) (hwfB : st.blocked.wf)
    (hvS : st.seen.schema.validValue c.seenVal = true)
    (hvB : st.blocked.schema.validValue c.blockedVal = true)
    (hkey : c.key ≠ SqlValue.null) :
    ∃ st' dec blk, gateIter c n st = Except.ok (st', dec, blk) ∧
      dec ≤ 1 ∧ blk ≤ 1 ∧ countKey st'.blocked c.key ≤ 1 ∧
      (1 ≤ n → containsD st'.seen c.key = true) ∧ st'.blocked.wf := by
  rcases n with _ | n
  · exact ⟨st, 0, 0, rfl, by omega, by omega,
      filter_key_length_le_one _ _ _ hwfB.2.2.2, by omega, hwfB⟩
  · by_cases hcont : containsD st.seen c.key = true
    · exact ⟨st, 0, 0, gateIter_of_contains c st hcont (n + 1), by omega, by omega,
        filter_key_length_le_one _ _ _ hwfB.2.2.2, fun _ => hcont, hwfB⟩
    · obtain ⟨seen', hs1, hssch, _, hscont, _, _⟩ :=
        setItemE_spec st.seen c.key c.seenVal hwfS hvS hkey
      rcases hdec : c.decide with _ | _
      · have hstep : gateStep st c = Except.ok ({ seen := seen', blocked := st.blocked }, 1, 0) := by
          unfold gateStep
          rw [if_neg hcont, hdec]
          simp only [Bool.false_eq_true, if_false]
          rw [hs1]
        have hrest := gateIter_of_contains c { seen := seen', blocked := st.blocked }
          (by exact hscont) n
        have hiter : gateIter c (n + 1) st =
            Except.ok ({ seen := seen', blocked := st.blocked }, 1, 0) := by
          unfold gateIter
          rw [hstep]
          simp only
          rw [hrest]
        exact ⟨{ seen := seen', blocked := st.blocked }, 1, 0, hiter, by omega, by omega,
          filter_key_length_le_one _ _ _ hwfB.2.2.2, fun _ => hscont, hwfB⟩
      · obtain ⟨blocked', hb1, hbsch, _, _, hbcnt, hbwf⟩ :=
          setItemE_spec st.blocked c.key c.blockedVal hwfB hvB hkey
        have hstep : gateStep st c = Except.ok
            ({ seen := seen', blocked := blocked' }, 1,
              if c.alreadyBlocking then 0 else 1) := by
          unfold gateStep
          rw [if_neg hcont, hdec]
          simp only [if_true]
          rw [hb1]
          simp only [Except.map]
          rw [hs1]
        have hrest := gateIter_of_contains c { seen := seen', blocked := blocked' }
          (by exact hscont) n
        have hiter : gateIter c (n + 1) st = Except.ok
            ({ seen := seen', blocked := blocked' }, 1,
              if c.alreadyBlocking then 0 else 1) := by
          unfold gateIter
          rw [hstep]
          simp only
          rw [hrest]
          rfl
        refine ⟨{ seen := seen', blocked := blocked' }, 1,
          (if c.alreadyBlocking then 0 else 1), hiter, by omega, ?_, ?_, fun _ => hscont,
          hbwf⟩
        · by_cases hb : c.alreadyBlocking <;> simp [hb]
        · rw [hbcnt]

/-- Concrete account, follower and empty source-schema stores for the C4
witness. -/
def account0 : Account := { id := 100, screen_name := "target" }

/-- A concrete follower for the C4 witness. -/
def follower0 : Follower :=
  { id := 42, screen_name := "someone", blocking := false, default_profile := true
    default_profile_image := false, protectedFlag := false, verified := false
    favourites_count := 1, followers_count := 2, friends_count := 3, listed_count := 4
    statuses_count := 5, created_at := "2020-01-01", description := "", location := ""
    name := "Some One", url := "", withheld_in_countries := "", withheld_scope := "" }

/-- The gate state at first use: both backing tables empty. -/
def gate0 : GateState :=
  { seen := { schema := followersSeenSchema, rows := [] }
    blocked := { schema := followersBlockedSchema, rows := [] } }

/-- C4 witness: three repeated `block_follower` invocations on one follower
with a positive whitelist verdict, starting from empty stores. -/
theorem claim_C4_witness :
    ∃ st' dec blk,
      gateIter (blockFollowerCall account0 follower0 true) 3 gate0
        = Except.ok (st', dec, blk) ∧
      dec ≤ 1 ∧ blk ≤ 1 ∧
      countKey st'.blocked (blockFollowerCall account0 follower0 true).key ≤ 1 ∧
      (1 ≤ 3 → containsD st'.seen (blockFollowerCall account0 follower0 true).key
        = true) ∧
      st'.blocked.wf := by
  exact claim_C4_theorem gate0 (blockFollowerCall account0 follower0 true) 3
    (by decide) (by decide) (by decide) (by decide) (by decide)
